import Mathlib

/-!
Shallow embedding of `src/talkingface/model/audio_driven_talkingface/live_speech_portraits.py`:
the `BaseModel` training/inference scaffold and the `live_speech_portraits` subclass.
Python values relevant to the verified claims are modelled explicitly; numeric tensor
payloads are modelled as integers (the code under study performs no floating-point
arithmetic on them), Python exceptions are modelled with `Except String` carrying the
exception class name, the filesystem is a function from paths to optionally present
state dicts, and `torch.device` values are modelled by their string form (`"cpu"`,
`"cuda:0"`, ...), matching the source's construction via `torch.device('cuda:{}' ...)`.
-/

namespace LSP

/-- Python values that appear as `model_names` / `loss_names` / `visual_names` entries or
as the `epoch` argument of `load_networks`: only strings and ints are manipulated. -/
inductive PyVal where
  | int (n : Int)
  | str (s : String)
  deriving DecidableEq, Repr

/-- Rendering used by Python `'%s' % v` formatting. -/
def pyStr : PyVal → String
  | .int n => toString n
  | .str s => s

/-- State dict of a network: an ordered association list from parameter/buffer names to
integer-modelled tensor payloads (mirrors the ordered `dict` returned by `state_dict()`). -/
abbrev StateDict := List (String × Int)

/-- Scalar value of a loss attribute: either a 0-dim tensor or a plain number; the
source comment notes `float(...)` works for both. -/
inductive Scalar where
  | tensor (v : Int)
  | num (v : Int)
  deriving DecidableEq, Repr

/-- Python `float(...)` applied to a scalar tensor or number (payload extraction). -/
def pyFloat : Scalar → Int
  | .tensor v => v
  | .num v => v

/-- Value of a Python attribute of the model object, as read by `getattr(self, name)`:
a network (with its train/eval mode flag and its state dict), a scalar loss value,
an opaque visualization tensor, or absent (so `getattr` raises `AttributeError`). -/
inductive PyAttr where
  | net (trainMode : Bool) (sd : StateDict)
  | scalar (c : Scalar)
  | vis (v : Int)
  | missing
  deriving DecidableEq, Repr

/-- Param group of a torch optimizer; the only field the source reads is `'lr'`. -/
structure ParamGroup where
  lr : Int
  deriving DecidableEq, Repr

/-- Torch optimizer, exposing its `param_groups` list. -/
structure Optim where
  param_groups : List ParamGroup
  deriving DecidableEq, Repr

/-- Record of one `scheduler.step` invocation: with the `metric` argument (the
`'plateau'` policy) or with no argument. -/
inductive StepCall where
  | withMetric (m : Int)
  | noArg
  deriving DecidableEq, Repr

/-- Torch learning-rate scheduler, modelled by the history of `step` calls it received. -/
structure Sched where
  steps : List StepCall
  deriving DecidableEq, Repr

/-- Option object (`opt`) fields read by the embedded methods. -/
structure Opt where
  gpu_ids : List Int
  isTrain : Bool
  checkpoints_dir : String
  name : String
  continue_train : Bool
  load_epoch : PyVal
  verbose : Bool
  lr_policy : String
  deriving Repr

/-- State of a `BaseModel` instance. The Python attribute namespace holding the named
networks, `loss_*` scalars and visuals is the function `attrs`; the fixed attributes
assigned by `__init__` and `setup` are record fields. `schedulers` is `none` while the
attribute does not exist (it is only assigned in `setup` when `isTrain`). -/
structure BM where
  opt : Opt
  gpu_ids : List Int
  isTrain : Bool
  device : String
  save_dir : String
  loss_names : List PyVal
  model_names : List PyVal
  visual_names : List PyVal
  optimizers : List Optim
  image_paths : List String
  metric : Int
  schedulers : Option (List Sched)
  attrs : String → PyAttr

/-- Python `os.path.join(a, b)` for the relative-path shapes used in this file. -/
def pyJoin (a b : String) : String := a ++ "/" ++ b

/-- Functional update of the attribute namespace (a `setattr`). -/
def updAttr (f : String → PyAttr) (k : String) (v : PyAttr) : String → PyAttr :=
  fun x => if x = k then v else f x

/-- Device selection of `BaseModel.__init__` (line 51):
`torch.device('cuda:{}'.format(gpu_ids[0])) if len(gpu_ids) > 0 else torch.device('cpu')`. -/
def mkDevice : List Int → String
  | [] => "cpu"
  | g :: _ => "cuda:" ++ toString g

/-- Embedding of `BaseModel.__init__(self, opt)` (lines 42-62). The cudnn flags are
global torch state with no bearing on any claim and are not modelled. -/
def baseModelInit (opt : Opt) : BM where
  opt := opt
  gpu_ids := opt.gpu_ids
  isTrain := opt.isTrain
  device := mkDevice opt.gpu_ids
  save_dir := pyJoin opt.checkpoints_dir opt.name
  loss_names := []
  model_names := []
  visual_names := []
  optimizers := []
  image_paths := []
  metric := 0
  schedulers := none
  attrs := fun _ => PyAttr.missing

/-- Embedding of `live_speech_portraits.__init__(self, config)` (lines 280-282): the body
is `super().__init__()` followed by `return`. The superclass `AbstractTalkingFace` lives
outside this file, so the state its (argumentless) initializer produces is an opaque
parameter `superInit`; the subclass contributes nothing of its own. -/
def live_speech_portraits_init {S Config : Type} (superInit : S) (_config : Config) : S :=
  superInit

/-- Keys of an ordered association dict, in order. -/
def odKeys {α : Type} (d : List (String × α)) : List String := d.map Prod.fst

/-- Lookup in an ordered association dict (Python `d[k]` read, first matching entry). -/
def odLookup {α : Type} : List (String × α) → String → Option α
  | [], _ => none
  | p :: rest, k => if p.1 == k then some p.2 else odLookup rest k

/-- Removal of a key from an ordered association dict (effect of Python `d.pop(k)`). -/
def odRemove {α : Type} (d : List (String × α)) (k : String) : List (String × α) :=
  d.filter (fun q => q.1 != k)

/-- Python ordered-dict assignment `d[k] = v`: updates the value in place when the key is
present (keeping its position) and appends a new entry at the end otherwise. -/
def odInsert {α : Type} (d : List (String × α)) (k : String) (v : α) : List (String × α) :=
  if d.any (fun q => q.1 == k) then d.map (fun q => if q.1 == k then (k, v) else q)
  else d ++ [(k, v)]

/-- Python `d.pop(k)` with no default: removes the entry or raises `KeyError`. -/
def sdPopE (d : StateDict) (k : String) : Except String StateDict :=
  if d.any (fun q => q.1 == k) then Except.ok (odRemove d k) else Except.error "KeyError"

/-- Python `key[7:]`: drop the first 7 characters of a string (empty if shorter). -/
def stripK (k : String) : String := String.mk (k.data.drop 7)

/-- Python `s[-3:]`: the last three characters (the whole string if shorter). -/
def pyLast3 (s : String) : String := String.mk (s.data.drop (s.data.length - 3))

/-- Python `s.startswith(p)`. -/
def pyStartsWith (s p : String) : Bool := s.data.take p.data.length == p.data

/-- One iteration of the CPU key-rewriting loop of `load_networks` (line 220):
`state_dict[key[7:]] = state_dict.pop(key)`. The lookup cannot fail when iterating the
snapshot of the original keys (assignments never remove entries and each iteration pops
only its own key); the `none` fallback is therefore inert. -/
def stripStep (d : StateDict) (key : String) : StateDict :=
  match odLookup d key with
  | some v => odInsert (odRemove d key) (stripK key) v
  | none => d

/-- CPU key-rewriting loop of `load_networks` (lines 219-220):
`for key in list(state_dict.keys()): state_dict[key[7:]] = state_dict.pop(key)`. -/
def stripLoop (sd : StateDict) : StateDict := (odKeys sd).foldl stripStep sd

/-- Effect of `net.load_state_dict(state_dict, strict=False)`: every parameter of the
network whose name occurs in `sd` takes the checkpoint value; parameters missing from
`sd` and entries of `sd` unknown to the network are silently ignored. -/
def loadStateDictNonStrict (netSd sd : StateDict) : StateDict :=
  netSd.map (fun p => (p.1, (odLookup sd p.1).getD p.2))

/-- Checkpoint path resolution of `load_networks` (lines 208-212): when the last three
characters of `epoch` are `'pkl'`, `epoch` itself is the load path; otherwise the path is
`os.path.join(save_dir, '%s_%s.pkl' % (epoch, name))`. -/
def resolvePath (save_dir es name : String) : String :=
  if pyLast3 es == "pkl" then es
  else pyJoin save_dir (es ++ "_" ++ name ++ ".pkl")

/-- Loop body of `BaseModel.load_networks` (lines 206-229) over the remaining
`model_names`. `fs` is the filesystem: `fs p = some sd` means the file at `p` exists and
`torch.load` yields `sd`. Slicing `epoch[-3:]` on an int raises `TypeError`; a missing
attribute raises `AttributeError`; a missing checkpoint file raises `ValueError` exactly
when `isTrain == False`, and is merely skipped otherwise. The `_metadata` deletion of
lines 221-222 is a no-op here because the modelled dicts carry no metadata attribute. -/
def load_networks_go (fs : String → Option StateDict) (epoch : PyVal) :
    BM → List PyVal → Except String BM
  | st, [] => Except.ok st
  | st, PyVal.int _ :: rest => load_networks_go fs epoch st rest
  | st, PyVal.str name :: rest =>
    match epoch with
    | PyVal.int _ => Except.error "TypeError"
    | PyVal.str es =>
      let load_path := resolvePath st.save_dir es name
      match st.attrs name with
      | PyAttr.net tm netSd =>
        match fs load_path with
        | some sd0 =>
          let sd1 := if st.device == "cpu" then stripLoop sd0 else sd0
          load_networks_go fs epoch
            ({ st with attrs := updAttr st.attrs name (PyAttr.net tm (loadStateDictNonStrict netSd sd1)) })
            rest
        | none =>
          if st.isTrain == false then Except.error "ValueError"
          else load_networks_go fs epoch st rest
      | _ => Except.error "AttributeError"

/-- Embedding of `BaseModel.load_networks(self, epoch)` (lines 199-229). -/
def load_networks (fs : String → Option StateDict) (st : BM) (epoch : PyVal) :
    Except String BM :=
  load_networks_go fs epoch st st.model_names

/-- String entries of a Python list, in order (the names the loops act on; entries
failing `isinstance(name, str)` are skipped by every loop of the source). -/
def stringEntries (l : List PyVal) : List String :=
  l.filterMap (fun v => match v with | PyVal.str s => some s | PyVal.int _ => none)

mutual

/-- Torch module tree as navigated by `__patch_instance_norm_state_dict`: a module has a
class name and named attributes, each a submodule, a tensor buffer, or `None`. -/
inductive PyModule where
  | mk (className : String) (attrs : List (String × PyModAttr))

/-- Attribute of a torch module: child module, tensor buffer, or `None`. -/
inductive PyModAttr where
  | child (m : PyModule)
  | buffer (v : Int)
  | noneVal

end

/-- Class name of a module (`module.__class__.__name__`). -/
def PyModule.className : PyModule → String
  | .mk c _ => c

/-- Attribute read `getattr(module, key)` on a module (`none` models `AttributeError`). -/
def PyModule.attr : PyModule → String → Option PyModAttr
  | .mk _ ats, k => odLookup ats k

/-- Leaf case of `__patch_instance_norm_state_dict` (lines 188-195), reached when
`i + 1 == len(keys)`: on an `InstanceNorm*` module, pop `'.'.join(keys)` from the state
dict if the key is `running_mean`/`running_var` with a `None` attribute, and pop it
unconditionally if the key is `num_batches_tracked`. -/
def patch_leaf (sd : StateDict) (m : PyModule) (keys : List String) (key : String) :
    Except String StateDict :=
  let full := String.intercalate "." keys
  let step1 : Except String StateDict :=
    if pyStartsWith m.className "InstanceNorm" &&
        (key == "running_mean" || key == "running_var") then
      match m.attr key with
      | some PyModAttr.noneVal => sdPopE sd full
      | some _ => Except.ok sd
      | none => Except.error "AttributeError"
    else Except.ok sd
  match step1 with
  | Except.error e => Except.error e
  | Except.ok sd1 =>
    if pyStartsWith m.className "InstanceNorm" && key == "num_batches_tracked" then
      sdPopE sd1 full
    else Except.ok sd1

/-- Recursion of `__patch_instance_norm_state_dict` (lines 185-197) over the key path:
`rest` is the suffix `keys[i:]`, `keys` the full path used by `'.'.join(keys)`. The
recursive call descends into `getattr(module, keys[i])`, which must be a submodule. -/
def patch_go (sd : StateDict) (m : PyModule) (keys : List String) :
    List String → Except String StateDict
  | [] => Except.error "IndexError"
  | key :: rest =>
    if rest.isEmpty then patch_leaf sd m keys key
    else
      match m.attr key with
      | some (PyModAttr.child m2) => patch_go sd m2 keys rest
      | some _ => Except.error "TypeError"
      | none => Except.error "AttributeError"

/-- Embedding of `BaseModel.__patch_instance_norm_state_dict(self, state_dict, module,
keys, i=0)` (lines 185-197). -/
def patch_instance_norm_state_dict (sd : StateDict) (m : PyModule) (keys : List String) :
    Except String StateDict :=
  patch_go sd m keys keys

/-- Resolution of a key path to the module it designates (each step through a
`child` attribute), used to phrase the patch claim. -/
def resolveModule : PyModule → List String → Option PyModule
  | m, [] => some m
  | m, k :: rest =>
    match m.attr k with
    | some (PyModAttr.child m2) => resolveModule m2 rest
    | _ => none

/-- Option object shared by the concrete witness instances below. -/
def wOpt : Opt := ⟨[0], true, "ck", "exp", false, PyVal.str "12", false, "linear"⟩

/-- Network weights of the witness network `netG`. -/
def wNetSd : StateDict := [("fc.w", 1), ("", 2)]

/-- Checkpoint contents used by the stripping witness: one key with the `module.` prefix
and one 4-character key that does not begin with it. -/
def wSd : StateDict := [("module.fc.w", 4), ("bias", 9)]

/-- Attribute namespace of the witness model: a single network called `netG`. -/
def wAttrs : String → PyAttr := fun n =>
  if n = "netG" then PyAttr.net true wNetSd else PyAttr.missing

/-- Witness model state for the CPU-stripping claim. -/
def wBMcpu : BM :=
  ⟨wOpt, [], true, "cpu", "ck/exp", [], [PyVal.str "netG"], [], [], [], 0, none, wAttrs⟩

/-- Witness filesystem: exactly one checkpoint file, at the resolved path for epoch `12`
and network `netG`. -/
def wFs : String → Option StateDict := fun p =>
  if p == "ck/exp/12_netG.pkl" then some wSd else none

/-- Network container of the C1 module-tree witness: one `InstanceNorm2d` child at
attribute `norm`, stored as legacy checkpoints would reference it. -/
def wInstNorm : PyModule :=
  PyModule.mk "InstanceNorm2d"
    [("running_mean", PyModAttr.noneVal), ("num_batches_tracked", PyModAttr.buffer 0)]

/-- Root module of the C1 witness tree. -/
def wNet : PyModule := PyModule.mk "Net" [("norm", PyModAttr.child wInstNorm)]

/-- Network weights for the C1 counterexample: the network itself owns an
`InstanceNorm` buffer key. -/
def cxNetSd : StateDict := [("norm.num_batches_tracked", 0), ("norm.weight", 1)]

/-- Checkpoint contents for the C1 counterexample, holding a `num_batches_tracked`
entry that the legacy patch would remove. -/
def cxSd : StateDict := [("norm.num_batches_tracked", 5), ("norm.weight", 3)]

/-- Attribute namespace for the C1 counterexample model. -/
def cxAttrs : String → PyAttr := fun n =>
  if n = "netG" then PyAttr.net true cxNetSd else PyAttr.missing

/-- Model state for the C1 counterexample (a CUDA device, so no key stripping occurs). -/
def cxBM : BM :=
  ⟨wOpt, [0], true, "cuda:0", "ck/exp", [], [PyVal.str "netG"], [], [], [], 0, none, cxAttrs⟩

/-- Filesystem for the C1 counterexample. -/
def cxFs : String → Option StateDict := fun p =>
  if p == "ck/exp/12_netG.pkl" then some cxSd else none

/-- Observable events of a `setup` run: scheduler-list creation (with the created
list), the call to `load_networks`, and the call to `print_networks` (whose own body
only reads the networks and writes to stdout). -/
inductive Ev where
  | schedsCreated (l : List Sched)
  | loadCalled (epoch : PyVal)
  | printCalled (verbose : Bool)
  deriving DecidableEq, Repr

/-- Embedding of `BaseModel.setup(self, opt)` (lines 96-106): create one scheduler per
optimizer when `isTrain`; call `load_networks(opt.load_epoch)` when `not isTrain or
opt.continue_train`; call `print_networks(opt.verbose)` afterwards. An exception from
`load_networks` propagates, so the trailing `print_networks` is then never reached.
`get_scheduler` lives in the external `networks` module and is a parameter. -/
def setup (getScheduler : Optim → Opt → Sched) (fs : String → Option StateDict)
    (st : BM) (opt : Opt) : List Ev × Except String BM :=
  let p :=
    if st.isTrain then
      ([Ev.schedsCreated (st.optimizers.map (fun o => getScheduler o opt))],
        { st with schedulers := some (st.optimizers.map (fun o => getScheduler o opt)) })
    else ([], st)
  if !st.isTrain || opt.continue_train then
    match load_networks fs p.2 opt.load_epoch with
    | Except.ok st2 =>
      (p.1 ++ [Ev.loadCalled opt.load_epoch, Ev.printCalled opt.verbose], Except.ok st2)
    | Except.error e => (p.1 ++ [Ev.loadCalled opt.load_epoch], Except.error e)
  else (p.1 ++ [Ev.printCalled opt.verbose], Except.ok p.2)

/-- Shared loop of `BaseModel.train` (lines 108-113) and `BaseModel.eval` (lines
115-120): for every string entry of `model_names`, fetch the network and set its mode
(`net.train(mode=True)` resp. `net.eval()`, the latter being `train(False)` in torch). -/
def set_train_go (mode : Bool) : BM → List PyVal → Except String BM
  | st, [] => Except.ok st
  | st, PyVal.int _ :: rest => set_train_go mode st rest
  | st, PyVal.str n :: rest =>
    match st.attrs n with
    | PyAttr.net _ sd =>
      set_train_go mode ({ st with attrs := (updAttr st.attrs n (PyAttr.net mode sd)) }) rest
    | _ => Except.error "AttributeError"

/-- Embedding of `BaseModel.train(self)` (lines 108-113). -/
def train (st : BM) : Except String BM := set_train_go true st st.model_names

/-- Embedding of `BaseModel.eval(self)` (lines 115-120). -/
def eval (st : BM) : Except String BM := set_train_go false st st.model_names

/-- Embedding of `BaseModel.update_learning_rate(self)` (lines 140-149): step every
scheduler, with `self.metric` under the `'plateau'` policy and with no argument
otherwise, then read `self.optimizers[0].param_groups[0]['lr']` (the printed value,
returned here; an empty list makes the read raise `IndexError` after the steps). -/
def update_learning_rate (st : BM) : BM × Except String Int :=
  match st.schedulers with
  | none => (st, Except.error "AttributeError")
  | some scheds =>
    let call := if st.opt.lr_policy == "plateau" then StepCall.withMetric st.metric
      else StepCall.noArg
    let st1 := { st with schedulers := some (scheds.map (fun s => ⟨s.steps ++ [call]⟩)) }
    match st.optimizers with
    | [] => (st1, Except.error "IndexError")
    | o :: _ =>
      match o.param_groups with
      | [] => (st1, Except.error "IndexError")
      | g :: _ => (st1, Except.ok g.lr)

/-- Loop of `BaseModel.get_current_losses` (lines 159-166) with the `OrderedDict`
accumulator: for each string entry `n` of `loss_names`, record
`float(getattr(self, 'loss_' + n))`. -/
def get_losses_go (st : BM) :
    List PyVal → List (String × Int) → Except String (List (String × Int))
  | [], acc => Except.ok acc
  | PyVal.int _ :: rest, acc => get_losses_go st rest acc
  | PyVal.str n :: rest, acc =>
    match st.attrs ("loss_" ++ n) with
    | PyAttr.scalar c => get_losses_go st rest (odInsert acc n (pyFloat c))
    | PyAttr.missing => Except.error "AttributeError"
    | _ => Except.error "TypeError"

/-- Embedding of `BaseModel.get_current_losses(self)` (lines 159-166); a pure reader of
the model state. -/
def get_current_losses (st : BM) : Except String (List (String × Int)) :=
  get_losses_go st st.loss_names []

/-- Loop of `BaseModel.get_current_visuals` (lines 151-157): for each string entry `n`
of `visual_names`, record `getattr(self, n)` whatever it is. -/
def get_visuals_go (st : BM) :
    List PyVal → List (String × PyAttr) → Except String (List (String × PyAttr))
  | [], acc => Except.ok acc
  | PyVal.int _ :: rest, acc => get_visuals_go st rest acc
  | PyVal.str n :: rest, acc =>
    match st.attrs n with
    | PyAttr.missing => Except.error "AttributeError"
    | a => get_visuals_go st rest (odInsert acc n a)

/-- Embedding of `BaseModel.get_current_visuals(self)` (lines 151-157); a pure reader
of the model state. -/
def get_current_visuals (st : BM) : Except String (List (String × PyAttr)) :=
  get_visuals_go st st.visual_names []

/-- Scheduler instance for the C6 witness. -/
def wSched : Sched := ⟨[]⟩

/-- Optimizer instance for the C6 witness, with one param group at lr 7. -/
def wOptim : Optim := ⟨[⟨7⟩]⟩

/-- Model state for the C6 witness: the `'plateau'` policy, metric 4, one scheduler
and one optimizer. -/
def wBMlr : BM :=
  ⟨{ wOpt with lr_policy := "plateau" }, [], true, "cpu", "ck/exp", [], [], [],
    [wOptim], [], 4, some [wSched], wAttrs⟩

/-- Attribute namespace of the C7 witness: one loss scalar and one visual tensor. -/
def wAttrsLoss : String → PyAttr := fun n =>
  if n = "loss_G" then PyAttr.scalar (Scalar.tensor 3)
  else if n = "fake_B" then PyAttr.vis 8
  else PyAttr.missing

/-- Model state of the C7 witness, with `loss_names = ['G']` and
`visual_names = ['fake_B']`. -/
def wBMloss : BM :=
  ⟨wOpt, [], true, "cpu", "ck/exp", [PyVal.str "G"], [], [PyVal.str "fake_B"],
    [], [], 0, none, wAttrsLoss⟩

@[simp] lemma odKeys_nil {α : Type} : odKeys ([] : List (String × α)) = [] := rfl

@[simp] lemma odKeys_cons {α : Type} (p : String × α) (d : List (String × α)) :
    odKeys (p :: d) = p.1 :: odKeys d := rfl

@[simp] lemma odKeys_append {α : Type} (a b : List (String × α)) :
    odKeys (a ++ b) = odKeys a ++ odKeys b := by
  simp [odKeys]

lemma odLookup_cons_self {α : Type} (k : String) (v : α) (d : List (String × α)) :
    odLookup ((k, v) :: d) k = some v := by
  simp [odLookup]

lemma odRemove_of_not_mem {α : Type} (d : List (String × α)) (k : String)
    (h : k ∉ odKeys d) : odRemove d k = d := by
  induction d with
  | nil => rfl
  | cons p rest ih =>
    simp only [odKeys_cons, List.mem_cons, not_or] at h
    simp only [odRemove, List.filter_cons]
    rw [if_pos (by simpa [bne_iff_ne] using Ne.symm h.1)]
    have hrest := ih h.2
    simpa [odRemove] using hrest

lemma odInsert_of_not_mem {α : Type} (d : List (String × α)) (k : String) (v : α)
    (h : k ∉ odKeys d) : odInsert d k v = d ++ [(k, v)] := by
  unfold odInsert
  rw [if_neg]
  intro hc
  rw [List.any_eq_true] at hc
  obtain ⟨q, hq, hbeq⟩ := hc
  have hq1 : q.1 = k := by simpa using hbeq
  exact h (show k ∈ List.map Prod.fst d from List.mem_map.mpr ⟨q, hq, hq1⟩)

lemma stripStep_head (k : String) (v : Int) (d : StateDict)
    (hk : k ∉ odKeys d) (hs : stripK k ∉ odKeys d) :
    stripStep ((k, v) :: d) k = d ++ [(stripK k, v)] := by
  unfold stripStep
  rw [odLookup_cons_self]
  have hrem : odRemove ((k, v) :: d) k = d := by
    simp only [odRemove, List.filter_cons]
    rw [if_neg (by simp)]
    exact odRemove_of_not_mem d k hk
  rw [hrem]
  show odInsert d (stripK k) v = d ++ [(stripK k, v)]
  exact odInsert_of_not_mem d (stripK k) v hs

lemma strip_go (rest : StateDict) : ∀ (done : StateDict),
    (odKeys (rest ++ done)).Nodup →
    (∀ p ∈ rest, stripK p.1 ∉ odKeys (rest ++ done)) →
    (rest.map (fun p => stripK p.1)).Nodup →
    (odKeys rest).foldl stripStep (rest ++ done) =
      done ++ rest.map (fun p => (stripK p.1, p.2)) := by
  induction rest with
  | nil => intro done _ _ _; simp
  | cons p rs ih =>
    intro done hnd hfresh hinj
    obtain ⟨k, v⟩ := p
    have hnd' : (k :: odKeys (rs ++ done)).Nodup := by simpa using hnd
    have hk : k ∉ odKeys (rs ++ done) := (List.nodup_cons.mp hnd').1
    have hndt : (odKeys (rs ++ done)).Nodup := (List.nodup_cons.mp hnd').2
    have hsk : stripK k ∉ k :: odKeys (rs ++ done) := by
      simpa using hfresh (k, v) (List.mem_cons_self _ _)
    have hsk' : stripK k ∉ odKeys (rs ++ done) := fun hmem => hsk (List.mem_cons_of_mem _ hmem)
    have hinj' : (rs.map (fun p => stripK p.1)).Nodup := (List.nodup_cons.mp (by simpa using hinj)).2
    have hknotin : stripK k ∉ rs.map (fun p => stripK p.1) :=
      (List.nodup_cons.mp (by simpa using hinj)).1
    have hstep : stripStep ((k, v) :: (rs ++ done)) k = rs ++ (done ++ [(stripK k, v)]) := by
      rw [stripStep_head k v (rs ++ done) hk hsk', List.append_assoc]
    have hihnd : (odKeys (rs ++ (done ++ [(stripK k, v)]))).Nodup := by
      rw [← List.append_assoc]
      simp only [odKeys_append, odKeys_cons, odKeys_nil]
      refine List.Nodup.append (by simpa using hndt) (List.nodup_singleton _) ?_
      rw [List.disjoint_singleton]
      simpa using hsk'
    have hihfresh : ∀ q ∈ rs, stripK q.1 ∉ odKeys (rs ++ (done ++ [(stripK k, v)])) := by
      intro q hq
      rw [← List.append_assoc]
      simp only [odKeys_append, odKeys_cons, odKeys_nil, List.mem_append]
      rintro (hin | hin)
      · exact hfresh q (List.mem_cons_of_mem _ hq) (by simp [List.mem_cons]; right; simpa using hin)
      · simp only [List.mem_singleton] at hin
        exact hknotin (hin ▸ List.mem_map.mpr ⟨q, hq, rfl⟩)
    calc (odKeys ((k, v) :: rs)).foldl stripStep ((k, v) :: rs ++ done)
        = (odKeys rs).foldl stripStep (stripStep ((k, v) :: (rs ++ done)) k) := by
          simp [List.foldl_cons]
      _ = (odKeys rs).foldl stripStep (rs ++ (done ++ [(stripK k, v)])) := by rw [hstep]
      _ = (done ++ [(stripK k, v)]) ++ rs.map (fun p => (stripK p.1, p.2)) :=
          ih (done ++ [(stripK k, v)]) hihnd hihfresh hinj'
      _ = done ++ ((k, v) :: rs).map (fun p => (stripK p.1, p.2)) := by
          simp [List.append_assoc]

/-- Full description of the CPU key-rewriting loop: when the original keys are distinct
and none of the 7-character-stripped keys collides with an original key or with another
stripped key, the loop rewrites every entry, replacing each key by its 7-character drop. -/
lemma stripLoop_eq (sd : StateDict)
    (hnd : (odKeys sd).Nodup)
    (hfresh : ∀ p ∈ sd, stripK p.1 ∉ odKeys sd)
    (hinj : (sd.map (fun p => stripK p.1)).Nodup) :
    stripLoop sd = sd.map (fun p => (stripK p.1, p.2)) := by
  have h := strip_go sd [] (by simpa using hnd) (by simpa using hfresh) hinj
  simpa [stripLoop] using h

/-- C9: when `self.device` is the CPU device, `load_networks` rewrites every key of the
loaded state dict by dropping its first 7 characters before `load_state_dict(strict=False)`
is called; the rewrite is unconditional over all keys (the hypotheses only rule out key
collisions among the rewritten names), including keys that do not begin with `module.`,
which are thereby corrupted rather than left intact. -/
theorem c9_cpu_key_stripping
    (sd : StateDict)
    (hnd : (odKeys sd).Nodup)
    (hfresh : ∀ p ∈ sd, stripK p.1 ∉ odKeys sd)
    (hinj : (sd.map (fun p => stripK p.1)).Nodup)
    (st : BM) (fs : String → Option StateDict) (es name : String) (tm : Bool)
    (netSd sd0 : StateDict)
    (hmn : st.model_names = [PyVal.str name])
    (hdev : st.device = "cpu")
    (hattr : st.attrs name = PyAttr.net tm netSd)
    (hfs : fs (resolvePath st.save_dir es name) = some sd0) :
    stripLoop sd = sd.map (fun p => (stripK p.1, p.2)) ∧
    load_networks fs st (PyVal.str es) =
      Except.ok ({ st with attrs := (updAttr st.attrs name
        (PyAttr.net tm (loadStateDictNonStrict netSd (stripLoop sd0)))) }) := by
  refine ⟨stripLoop_eq sd hnd hfresh hinj, ?_⟩
  simp [load_networks, load_networks_go, hmn, hattr, hfs, hdev]

/-- Witness for C9: a checkpoint holding `module.fc.w` and the unprefixed key `bias`;
the loop strips both, turning `bias` into the empty-string key. -/
theorem c9_cpu_key_stripping_witness :
    stripLoop wSd = wSd.map (fun p => (stripK p.1, p.2)) ∧
    load_networks wFs wBMcpu (PyVal.str "12") =
      Except.ok ({ wBMcpu with attrs := (updAttr wBMcpu.attrs "netG"
        (PyAttr.net true (loadStateDictNonStrict wNetSd (stripLoop wSd)))) }) :=
  c9_cpu_key_stripping wSd (by decide) (by decide) (by decide) wBMcpu wFs "12" "netG"
    true wNetSd wSd rfl rfl (by decide) (by decide)

/-- Helper for C10: when `model_names` holds at least one string entry and `epoch` is an
int, the loop raises `TypeError` at the slice `epoch[-3:]`, for any filesystem. -/
lemma load_go_int_error (fs : String → Option StateDict) (k : Int) (name0 : String) :
    ∀ (names : List PyVal) (st : BM), PyVal.str name0 ∈ names →
      load_networks_go fs (PyVal.int k) st names = Except.error "TypeError" := by
  intro names
  induction names with
  | nil => intro st h; cases h
  | cons nm rest ih =>
    intro st h
    cases nm with
    | int m =>
      have hmem : PyVal.str name0 ∈ rest := by
        rcases List.mem_cons.mp h with hh | hh
        · cases hh
        · exact hh
      simpa [load_networks_go] using ih st hmem
    | str s => simp [load_networks_go]

/-- C10: `load_networks` evaluates `epoch[-3:]` for every string entry of `model_names`,
so a non-sliceable `epoch` (an int) raises `TypeError` regardless of the filesystem, i.e.
before any file access; and whenever the last three characters of `epoch` equal `pkl`,
`epoch` itself is the full load path for every model name, bypassing `save_dir` and the
`%s_%s.pkl` derivation. -/
theorem c10_epoch_slicing (fs : String → Option StateDict) (st : BM) (k : Int)
    (name0 : String) (h : PyVal.str name0 ∈ st.model_names)
    (d es nm : String) (hpkl : pyLast3 es = "pkl") :
    load_networks fs st (PyVal.int k) = Except.error "TypeError" ∧
    resolvePath d es nm = es := by
  refine ⟨load_go_int_error fs k name0 st.model_names st h, ?_⟩
  simp [resolvePath, hpkl]

/-- Witness for C10 at the int epoch `12` and the string epoch `best.pkl`. -/
theorem c10_epoch_slicing_witness :
    load_networks (fun _ => none) wBMcpu (PyVal.int 12) = Except.error "TypeError" ∧
    resolvePath "ck/exp" "best.pkl" "netG" = "best.pkl" :=
  c10_epoch_slicing (fun _ => none) wBMcpu 12 "netG" (by decide) "ck/exp" "best.pkl"
    "netG" (by decide)

@[simp] lemma stringEntries_nil : stringEntries [] = [] := rfl

@[simp] lemma stringEntries_cons_int (m : Int) (l : List PyVal) :
    stringEntries (PyVal.int m :: l) = stringEntries l := rfl

@[simp] lemma stringEntries_cons_str (s : String) (l : List PyVal) :
    stringEntries (PyVal.str s :: l) = s :: stringEntries l := rfl

lemma load_go_cons_some (fs : String → Option StateDict) (es name : String)
    (rest : List PyVal) (st : BM) (tm : Bool) (netSd sd0 : StateDict)
    (hA : st.attrs name = PyAttr.net tm netSd)
    (hFs : fs (resolvePath st.save_dir es name) = some sd0) :
    load_networks_go fs (PyVal.str es) st (PyVal.str name :: rest) =
      load_networks_go fs (PyVal.str es)
        ({ st with attrs := (updAttr st.attrs name (PyAttr.net tm (loadStateDictNonStrict netSd
          (if st.device == "cpu" then stripLoop sd0 else sd0)))) }) rest := by
  simp [load_networks_go, hA, hFs]

lemma load_go_cons_none (fs : String → Option StateDict) (es name : String)
    (rest : List PyVal) (st : BM) (tm : Bool) (netSd : StateDict)
    (hA : st.attrs name = PyAttr.net tm netSd)
    (hFs : fs (resolvePath st.save_dir es name) = none) :
    load_networks_go fs (PyVal.str es) st (PyVal.str name :: rest) =
      if st.isTrain == false then Except.error "ValueError"
      else load_networks_go fs (PyVal.str es) st rest := by
  simp [load_networks_go, hA, hFs]

/-- Shape of one complete run of the `load_networks` loop for a string epoch, provided
every string entry of the iterated names designates a network attribute: runs raise
nothing when all resolved files exist, leave every network whose file is missing
untouched when `isTrain` holds, and raise `ValueError` exactly when `isTrain` is false
and some resolved file is missing. -/
lemma load_go_spec (fs : String → Option StateDict) (es : String) :
    ∀ (names : List PyVal) (st : BM),
      (∀ n ∈ stringEntries names, ∃ tm sd, st.attrs n = PyAttr.net tm sd) →
      (((∀ n ∈ stringEntries names, (fs (resolvePath st.save_dir es n)).isSome) →
          ∃ st2, load_networks_go fs (PyVal.str es) st names = Except.ok st2) ∧
        (st.isTrain = true →
          ∃ st2, load_networks_go fs (PyVal.str es) st names = Except.ok st2 ∧
            ∀ n : String, fs (resolvePath st.save_dir es n) = none →
              st2.attrs n = st.attrs n) ∧
        (st.isTrain = false →
          ((load_networks_go fs (PyVal.str es) st names = Except.error "ValueError") ↔
            ∃ n ∈ stringEntries names, fs (resolvePath st.save_dir es n) = none))) := by
  intro names
  induction names with
  | nil =>
    intro st _
    refine ⟨fun _ => ⟨st, rfl⟩, fun _ => ⟨st, rfl, fun _ _ => rfl⟩, fun _ => ?_⟩
    simp [load_networks_go]
  | cons nm rest ih =>
    intro st hNet
    cases nm with
    | int m =>
      have hNet' : ∀ n ∈ stringEntries rest, ∃ tm sd, st.attrs n = PyAttr.net tm sd := by
        simpa using hNet
      have heq : load_networks_go fs (PyVal.str es) st (PyVal.int m :: rest) =
          load_networks_go fs (PyVal.str es) st rest := by
        simp [load_networks_go]
      obtain ⟨ha, hb, hc⟩ := ih st hNet'
      refine ⟨?_, ?_, ?_⟩
      · intro hAll
        rw [heq]
        exact ha (by simpa using hAll)
      · intro hT
        obtain ⟨st2, hok, hpres⟩ := hb hT
        exact ⟨st2, by rw [heq]; exact hok, hpres⟩
      · intro hF
        rw [heq]
        simpa using hc hF
    | str name =>
      obtain ⟨tm, netSd, hA⟩ := hNet name (by simp)
      have hNetTail : ∀ n ∈ stringEntries rest, ∃ tm2 sd2, st.attrs n = PyAttr.net tm2 sd2 :=
        fun n hn => hNet n (by simp [hn])
      cases hFs : fs (resolvePath st.save_dir es name) with
      | some sd0 =>
        set st1 : BM := { st with attrs := (updAttr st.attrs name (PyAttr.net tm
          (loadStateDictNonStrict netSd (if st.device == "cpu" then stripLoop sd0 else sd0)))) }
          with hst1
        have heq : load_networks_go fs (PyVal.str es) st (PyVal.str name :: rest) =
            load_networks_go fs (PyVal.str es) st1 rest :=
          load_go_cons_some fs es name rest st tm netSd sd0 hA hFs
        have hNet1 : ∀ n ∈ stringEntries rest, ∃ tm2 sd2, st1.attrs n = PyAttr.net tm2 sd2 := by
          intro n hn
          by_cases hne : n = name
          · subst hne
            refine ⟨tm, loadStateDictNonStrict netSd
              (if st.device == "cpu" then stripLoop sd0 else sd0), ?_⟩
            simp [hst1, updAttr]
          · obtain ⟨tm2, sd2, h2⟩ := hNetTail n hn
            refine ⟨tm2, sd2, ?_⟩
            simp only [hst1, updAttr]
            rw [if_neg hne]
            exact h2
        obtain ⟨ha, hb, hc⟩ := ih st1 hNet1
        refine ⟨?_, ?_, ?_⟩
        · intro hAll
          rw [heq]
          exact ha (fun n hn => hAll n (by simp [hn]))
        · intro hT
          obtain ⟨st2, hok, hpres⟩ := hb hT
          refine ⟨st2, by rw [heq]; exact hok, ?_⟩
          intro n hnone
          have hne : n ≠ name := by
            intro hcontra
            subst hcontra
            rw [hnone] at hFs
            exact Option.noConfusion hFs
          have h1 : st1.attrs n = st.attrs n := by
            simp only [hst1, updAttr]
            rw [if_neg hne]
          have h2 := hpres n hnone
          rw [h2, h1]
        · intro hF
          rw [heq]
          constructor
          · intro herr
            obtain ⟨n, hn, hnone⟩ := (hc hF).mp herr
            exact ⟨n, by simp [hn], hnone⟩
          · rintro ⟨n, hn, hnone⟩
            have hn2 : n = name ∨ n ∈ stringEntries rest := by simpa using hn
            rcases hn2 with hn1 | hn1
            · subst hn1
              rw [hnone] at hFs
              exact Option.noConfusion hFs
            · exact (hc hF).mpr ⟨n, hn1, hnone⟩
      | none =>
        have heq := load_go_cons_none fs es name rest st tm netSd hA hFs
        cases hT : st.isTrain with
        | true =>
          have heq2 : load_networks_go fs (PyVal.str es) st (PyVal.str name :: rest) =
              load_networks_go fs (PyVal.str es) st rest := by
            rw [heq, hT]
            simp
          obtain ⟨ha, hb, hc⟩ := ih st hNetTail
          refine ⟨?_, ?_, ?_⟩
          · intro hAll
            have hcontra := hAll name (by simp)
            rw [hFs] at hcontra
            simp at hcontra
          · intro _
            obtain ⟨st2, hok, hpres⟩ := hb hT
            exact ⟨st2, by rw [heq2]; exact hok, hpres⟩
          · intro hF
            exact Bool.noConfusion hF
        | false =>
          have heq2 : load_networks_go fs (PyVal.str es) st (PyVal.str name :: rest) =
              Except.error "ValueError" := by
            rw [heq, hT]
            simp
          refine ⟨?_, ?_, ?_⟩
          · intro hAll
            have hcontra := hAll name (by simp)
            rw [hFs] at hcontra
            simp at hcontra
          · intro hT2
            exact Bool.noConfusion hT2
          · intro _
            rw [heq2]
            exact ⟨fun _ => ⟨name, by simp, hFs⟩, fun _ => rfl⟩

/-- C2: `load_networks` raises `ValueError` for a missing resolved checkpoint file if
and only if `self.isTrain` is false; when `isTrain` is true a missing file raises
nothing and leaves that network's attribute (its weights) unchanged; and when every
resolved file exists the existence check never raises. -/
theorem c2_missing_checkpoint_valueerror (fs : String → Option StateDict) (st : BM)
    (es : String)
    (hNet : ∀ n ∈ stringEntries st.model_names, ∃ tm sd, st.attrs n = PyAttr.net tm sd) :
    ((∀ n ∈ stringEntries st.model_names, (fs (resolvePath st.save_dir es n)).isSome) →
        ∃ st2, load_networks fs st (PyVal.str es) = Except.ok st2) ∧
    (st.isTrain = true →
        ∃ st2, load_networks fs st (PyVal.str es) = Except.ok st2 ∧
          ∀ n : String, fs (resolvePath st.save_dir es n) = none →
            st2.attrs n = st.attrs n) ∧
    (st.isTrain = false →
        ((load_networks fs st (PyVal.str es) = Except.error "ValueError") ↔
          ∃ n ∈ stringEntries st.model_names, fs (resolvePath st.save_dir es n) = none)) :=
  load_go_spec fs es st.model_names st hNet

/-- Witness for C2 at a concrete model with one network, `isTrain = true`, and a
filesystem holding the single resolved checkpoint. -/
theorem c2_missing_checkpoint_valueerror_witness :
    ((∀ n ∈ stringEntries wBMcpu.model_names,
        (wFs (resolvePath wBMcpu.save_dir "12" n)).isSome) →
        ∃ st2, load_networks wFs wBMcpu (PyVal.str "12") = Except.ok st2) ∧
    (wBMcpu.isTrain = true →
        ∃ st2, load_networks wFs wBMcpu (PyVal.str "12") = Except.ok st2 ∧
          ∀ n : String, wFs (resolvePath wBMcpu.save_dir "12" n) = none →
            st2.attrs n = wBMcpu.attrs n) ∧
    (wBMcpu.isTrain = false →
        ((load_networks wFs wBMcpu (PyVal.str "12") = Except.error "ValueError") ↔
          ∃ n ∈ stringEntries wBMcpu.model_names,
            wFs (resolvePath wBMcpu.save_dir "12" n) = none)) :=
  c2_missing_checkpoint_valueerror wFs wBMcpu "12" (by
    intro n hn
    have hn2 : n = "netG" := by simpa [wBMcpu] using hn
    subst hn2
    exact ⟨true, wNetSd, rfl⟩)

lemma sdPopE_mem (sd : StateDict) (k : String) (hmem : k ∈ odKeys sd) :
    sdPopE sd k = Except.ok (odRemove sd k) := by
  unfold sdPopE
  rw [if_pos]
  rw [List.any_eq_true]
  obtain ⟨p, hp, hpk⟩ := List.mem_map.mp hmem
  exact ⟨p, hp, by simp [hpk]⟩

lemma patch_go_resolve (ks : List String) :
    ∀ (m mleaf : PyModule), resolveModule m ks = some mleaf →
      ∀ (sd : StateDict) (keys : List String) (key : String),
        patch_go sd m keys (ks ++ [key]) = patch_leaf sd mleaf keys key := by
  induction ks with
  | nil =>
    intro m mleaf hres sd keys key
    have hm : m = mleaf := by simpa [resolveModule] using hres
    subst hm
    simp [patch_go]
  | cons k ks2 ih =>
    intro m mleaf hres sd keys key
    cases hA : m.attr k with
    | none => simp [resolveModule, hA] at hres
    | some a =>
      cases a with
      | child m2 =>
        have hres2 : resolveModule m2 ks2 = some mleaf := by
          simpa [resolveModule, hA] using hres
        have hne : (ks2 ++ [key]).isEmpty = false := by cases ks2 <;> rfl
        have hgo : patch_go sd m keys ((k :: ks2) ++ [key]) =
            patch_go sd m2 keys (ks2 ++ [key]) := by
          simp [patch_go, hA, hne]
        rw [hgo]
        exact ih m2 mleaf hres2 sd keys key
      | buffer v => simp [resolveModule, hA] at hres
      | noneVal => simp [resolveModule, hA] at hres

lemma patch_leaf_nbt (sd : StateDict) (m : PyModule) (keys : List String)
    (hcls : pyStartsWith m.className "InstanceNorm" = true)
    (hmem : String.intercalate "." keys ∈ odKeys sd) :
    patch_leaf sd m keys "num_batches_tracked" =
      Except.ok (odRemove sd (String.intercalate "." keys)) := by
  have hff : ((("num_batches_tracked" : String) == "running_mean") ||
      (("num_batches_tracked" : String) == "running_var")) = false := by decide
  simp [patch_leaf, hcls, hff, sdPopE_mem sd _ hmem]

lemma patch_leaf_running (sd : StateDict) (m : PyModule) (keys : List String) (key : String)
    (hcls : pyStartsWith m.className "InstanceNorm" = true)
    (hkey : key = "running_mean" ∨ key = "running_var")
    (hattr : m.attr key = some PyModAttr.noneVal)
    (hmem : String.intercalate "." keys ∈ odKeys sd) :
    patch_leaf sd m keys key = Except.ok (odRemove sd (String.intercalate "." keys)) := by
  have hk1 : ((key == "running_mean") || (key == "running_var")) = true := by
    rcases hkey with h | h <;> subst h <;> decide
  have hk2 : (key == "num_batches_tracked") = false := by
    rcases hkey with h | h <;> subst h <;> decide
  simp [patch_leaf, hcls, hk1, hk2, hattr, sdPopE_mem sd _ hmem]

/-- C1 (amended): `__patch_instance_norm_state_dict` itself removes `running_mean` /
`running_var` entries whose module attribute is `None` and always removes
`num_batches_tracked` entries, for key paths resolving to an `InstanceNorm*` module;
but `load_networks` never invokes it (the invocation is commented out in the source):
the loaded state dict is passed to `load_state_dict(strict=False)` unpatched. -/
theorem c1_patch_never_applied
    (sd : StateDict) (m mleaf : PyModule) (ks : List String) (key : String)
    (hres : resolveModule m ks = some mleaf)
    (hcls : pyStartsWith mleaf.className "InstanceNorm" = true)
    (st : BM) (fs : String → Option StateDict) (es name : String) (tm : Bool)
    (netSd sd0 : StateDict)
    (hmn : st.model_names = [PyVal.str name])
    (hattr : st.attrs name = PyAttr.net tm netSd)
    (hdev : (st.device == "cpu") = false)
    (hfs : fs (resolvePath st.save_dir es name) = some sd0) :
    (key = "num_batches_tracked" →
        String.intercalate "." (ks ++ [key]) ∈ odKeys sd →
        patch_instance_norm_state_dict sd m (ks ++ [key]) =
          Except.ok (odRemove sd (String.intercalate "." (ks ++ [key])))) ∧
    ((key = "running_mean" ∨ key = "running_var") →
        mleaf.attr key = some PyModAttr.noneVal →
        String.intercalate "." (ks ++ [key]) ∈ odKeys sd →
        patch_instance_norm_state_dict sd m (ks ++ [key]) =
          Except.ok (odRemove sd (String.intercalate "." (ks ++ [key])))) ∧
    load_networks fs st (PyVal.str es) =
      Except.ok ({ st with attrs := (updAttr st.attrs name
        (PyAttr.net tm (loadStateDictNonStrict netSd sd0))) }) := by
  refine ⟨?_, ?_, ?_⟩
  · intro hk hmem
    subst hk
    unfold patch_instance_norm_state_dict
    rw [patch_go_resolve ks m mleaf hres sd (ks ++ ["num_batches_tracked"])
      "num_batches_tracked"]
    exact patch_leaf_nbt sd mleaf (ks ++ ["num_batches_tracked"]) hcls hmem
  · intro hkey hA hmem
    unfold patch_instance_norm_state_dict
    rw [patch_go_resolve ks m mleaf hres sd (ks ++ [key]) key]
    exact patch_leaf_running sd mleaf (ks ++ [key]) key hcls hkey hA hmem
  · simp [load_networks, load_networks_go, hmn, hattr, hfs, hdev]

/-- Witness for C1 on the concrete module tree `wNet` (an `InstanceNorm2d` at `norm`)
and the concrete counterexample model. -/
theorem c1_patch_never_applied_witness :
    ("num_batches_tracked" = "num_batches_tracked" →
        String.intercalate "." (["norm"] ++ ["num_batches_tracked"]) ∈ odKeys cxSd →
        patch_instance_norm_state_dict cxSd wNet (["norm"] ++ ["num_batches_tracked"]) =
          Except.ok (odRemove cxSd
            (String.intercalate "." (["norm"] ++ ["num_batches_tracked"])))) ∧
    (("num_batches_tracked" = "running_mean" ∨ "num_batches_tracked" = "running_var") →
        wInstNorm.attr "num_batches_tracked" = some PyModAttr.noneVal →
        String.intercalate "." (["norm"] ++ ["num_batches_tracked"]) ∈ odKeys cxSd →
        patch_instance_norm_state_dict cxSd wNet (["norm"] ++ ["num_batches_tracked"]) =
          Except.ok (odRemove cxSd
            (String.intercalate "." (["norm"] ++ ["num_batches_tracked"])))) ∧
    load_networks cxFs cxBM (PyVal.str "12") =
      Except.ok ({ cxBM with attrs := (updAttr cxBM.attrs "netG"
        (PyAttr.net true (loadStateDictNonStrict cxNetSd cxSd))) }) :=
  c1_patch_never_applied cxSd wNet wInstNorm ["norm"] "num_batches_tracked" rfl rfl
    cxBM cxFs "12" "netG" true cxNetSd cxSd rfl rfl rfl (by decide)

/-- Counterexample to C1 as stated: in the run of `load_networks` on `cxBM` the
`num_batches_tracked` entry of the checkpoint is not removed — the loaded network ends
with the checkpoint value 5 — although the key path resolves to an `InstanceNorm2d`
module, while the patch applied to the same state dict does remove the entry. -/
theorem c1_counterexample :
    ((load_networks cxFs cxBM (PyVal.str "12")).map (fun s => s.attrs "netG") =
      Except.ok (PyAttr.net true [("norm.num_batches_tracked", 5), ("norm.weight", 3)])) ∧
    patch_instance_norm_state_dict cxSd wNet ["norm", "num_batches_tracked"] =
      Except.ok [("norm.weight", 3)] :=
  ⟨rfl, rfl⟩

/-- Frame property of the `load_networks` loop: a successful run only rewrites the
attribute namespace; every other field of the model state is unchanged. -/
lemma load_go_frame (fs : String → Option StateDict) (epoch : PyVal) :
    ∀ (names : List PyVal) (st st2 : BM),
      load_networks_go fs epoch st names = Except.ok st2 →
      st2 = { st with attrs := st2.attrs } := by
  intro names
  induction names with
  | nil =>
    intro st st2 h
    have h2 : st = st2 := by simpa [load_networks_go] using h
    subst h2
    rfl
  | cons nm rest ih =>
    intro st st2 h
    cases nm with
    | int m => exact ih st st2 (by simpa [load_networks_go] using h)
    | str name =>
      cases epoch with
      | int k => simp [load_networks_go] at h
      | str es =>
        cases hA : st.attrs name with
        | net tm netSd =>
          cases hFs : fs (resolvePath st.save_dir es name) with
          | some sd0 =>
            rw [load_go_cons_some fs es name rest st tm netSd sd0 hA hFs] at h
            have h5 := ih _ st2 h
            exact h5
          | none =>
            rw [load_go_cons_none fs es name rest st tm netSd hA hFs] at h
            by_cases hT : st.isTrain = false
            · rw [if_pos (by simp [hT])] at h
              exact Except.noConfusion h
            · rw [if_neg (by simpa using hT)] at h
              exact ih st st2 h
        | scalar c => simp [load_networks_go, hA] at h
        | vis v => simp [load_networks_go, hA] at h
        | missing => simp [load_networks_go, hA] at h

/-- C4 (amended): `setup` creates exactly one scheduler per entry of `self.optimizers`
(in order) iff `isTrain`; it calls `load_networks(opt.load_epoch)` iff `isTrain` is
false or `opt.continue_train` holds; and it calls `print_networks(opt.verbose)`
afterwards exactly when the load (if performed) returned normally — when `load_networks`
raises, the exception propagates and `print_networks` is not reached. -/
theorem c4_setup_control_flow (getScheduler : Optim → Opt → Sched)
    (fs : String → Option StateDict) (st : BM) (opt : Opt) :
    ((Ev.schedsCreated (st.optimizers.map (fun o => getScheduler o opt)) ∈
        (setup getScheduler fs st opt).1) ↔ st.isTrain = true) ∧
    ((Ev.loadCalled opt.load_epoch ∈ (setup getScheduler fs st opt).1) ↔
        (st.isTrain = false ∨ opt.continue_train = true)) ∧
    ((Ev.printCalled opt.verbose ∈ (setup getScheduler fs st opt).1) ↔
        (∃ st2, (setup getScheduler fs st opt).2 = Except.ok st2)) ∧
    (st.isTrain = true → ∀ st2, (setup getScheduler fs st opt).2 = Except.ok st2 →
        st2.schedulers = some (st.optimizers.map (fun o => getScheduler o opt))) := by
  cases hT : st.isTrain with
  | false =>
    cases hL : load_networks fs st opt.load_epoch with
    | ok st2 =>
      refine ⟨by simp [setup, hT, hL], by simp [setup, hT, hL], by simp [setup, hT, hL], ?_⟩
      intro hcontra
      exact Bool.noConfusion hcontra
    | error e =>
      refine ⟨by simp [setup, hT, hL], by simp [setup, hT, hL], by simp [setup, hT, hL], ?_⟩
      intro hcontra
      exact Bool.noConfusion hcontra
  | true =>
    cases hC : opt.continue_train with
    | false =>
      refine ⟨by simp [setup, hT, hC], by simp [setup, hT, hC], by simp [setup, hT, hC], ?_⟩
      intro _ st2 h2
      simp [setup, hT, hC] at h2
      rw [← h2]
    | true =>
      refine ⟨?_, ?_, ?_, ?_⟩
      · simp only [setup, hT, hC]
        simp
        split <;> simp
      · simp only [setup, hT, hC]
        simp
        split <;> simp
      · simp only [setup, hT, hC]
        simp
        split <;> simp
      · intro _ st2 h2
        simp only [setup, hT, hC] at h2
        simp at h2
        split at h2
        · rename_i st3 heq
          simp at h2
          have h5 := load_go_frame fs opt.load_epoch _ _ st3 heq
          rw [← h2, h5]
        · rename_i e heq
          simp at h2

/-- Witness for C4's amended statement at a concrete training-mode model. -/
theorem c4_setup_control_flow_witness :
    ((Ev.schedsCreated (wBMcpu.optimizers.map (fun o => (fun _ _ => (⟨[]⟩ : Sched)) o wOpt)) ∈
        (setup (fun _ _ => (⟨[]⟩ : Sched)) wFs wBMcpu wOpt).1) ↔ wBMcpu.isTrain = true) ∧
    ((Ev.loadCalled wOpt.load_epoch ∈ (setup (fun _ _ => (⟨[]⟩ : Sched)) wFs wBMcpu wOpt).1) ↔
        (wBMcpu.isTrain = false ∨ wOpt.continue_train = true)) ∧
    ((Ev.printCalled wOpt.verbose ∈ (setup (fun _ _ => (⟨[]⟩ : Sched)) wFs wBMcpu wOpt).1) ↔
        (∃ st2, (setup (fun _ _ => (⟨[]⟩ : Sched)) wFs wBMcpu wOpt).2 = Except.ok st2)) ∧
    (wBMcpu.isTrain = true →
      ∀ st2, (setup (fun _ _ => (⟨[]⟩ : Sched)) wFs wBMcpu wOpt).2 = Except.ok st2 →
        st2.schedulers = some (wBMcpu.optimizers.map (fun o => (fun _ _ => (⟨[]⟩ : Sched)) o wOpt))) :=
  c4_setup_control_flow (fun _ _ => (⟨[]⟩ : Sched)) wFs wBMcpu wOpt

/-- Counterexample to C4 as stated: in inference mode with a missing checkpoint,
`setup` raises `ValueError` out of `load_networks` and the `print_networks` call is
never reached — the event trace ends at the load call. -/
theorem c4_counterexample :
    (setup (fun _ _ => (⟨[]⟩ : Sched)) (fun _ => none)
        ({ wBMcpu with isTrain := false }) wOpt).1 = [Ev.loadCalled (PyVal.str "12")] ∧
    (setup (fun _ _ => (⟨[]⟩ : Sched)) (fun _ => none)
        ({ wBMcpu with isTrain := false }) wOpt).2 = Except.error "ValueError" ∧
    (Ev.printCalled wOpt.verbose ∉
      (setup (fun _ _ => (⟨[]⟩ : Sched)) (fun _ => none)
        ({ wBMcpu with isTrain := false }) wOpt).1) :=
  ⟨rfl, rfl, by decide⟩

/-- Behavior of the shared `train`/`eval` loop: every string entry of the iterated
names has its network's mode set to `mode` (weights untouched), every other attribute
is unchanged, and no other field of the model state changes. -/
lemma set_train_go_spec (mode : Bool) :
    ∀ (names : List PyVal) (st : BM),
      (∀ n ∈ stringEntries names, ∃ tm sd, st.attrs n = PyAttr.net tm sd) →
      ∃ st2, set_train_go mode st names = Except.ok st2 ∧
        st2 = { st with attrs := st2.attrs } ∧
        (∀ n ∈ stringEntries names, ∃ tm sd, st.attrs n = PyAttr.net tm sd ∧
          st2.attrs n = PyAttr.net mode sd) ∧
        (∀ n2 : String, n2 ∉ stringEntries names → st2.attrs n2 = st.attrs n2) := by
  intro names
  induction names with
  | nil =>
    intro st _
    exact ⟨st, rfl, rfl, fun n hn => absurd hn (by simp), fun n2 _ => rfl⟩
  | cons nm rest ih =>
    intro st hNet
    cases nm with
    | int m =>
      obtain ⟨st2, hok, hfr, hset, hpres⟩ := ih st (by simpa using hNet)
      refine ⟨st2, by simpa [set_train_go] using hok, hfr, by simpa using hset, ?_⟩
      intro n2 hn2
      exact hpres n2 (by simpa using hn2)
    | str name =>
      obtain ⟨tm, netSd, hA⟩ := hNet name (by simp)
      set st1 : BM := { st with attrs := (updAttr st.attrs name (PyAttr.net mode netSd)) }
        with hst1
      have hNet1 : ∀ n ∈ stringEntries rest, ∃ tm2 sd2, st1.attrs n = PyAttr.net tm2 sd2 := by
        intro n hn
        by_cases hne : n = name
        · subst hne
          exact ⟨mode, netSd, by simp [hst1, updAttr]⟩
        · obtain ⟨tm2, sd2, h2⟩ := hNet n (by simp [hn])
          refine ⟨tm2, sd2, ?_⟩
          simp only [hst1, updAttr]
          rw [if_neg hne]
          exact h2
      obtain ⟨st2, hok, hfr, hset, hpres⟩ := ih st1 hNet1
      have hgo : set_train_go mode st (PyVal.str name :: rest) = set_train_go mode st1 rest := by
        simp [set_train_go, hA, hst1]
      refine ⟨st2, by rw [hgo]; exact hok, hfr, ?_, ?_⟩
      · intro n hn
        by_cases hmem : n ∈ stringEntries rest
        · obtain ⟨tm2, sd2, h2, h3⟩ := hset n hmem
          by_cases hne : n = name
          · subst hne
            have hx : st1.attrs n = PyAttr.net mode netSd := by simp [hst1, updAttr]
            rw [hx] at h2
            injection h2 with h21 h22
            subst h22
            exact ⟨tm, netSd, hA, h3⟩
          · have hx : st1.attrs n = st.attrs n := by
              simp only [hst1, updAttr]
              rw [if_neg hne]
            rw [hx] at h2
            exact ⟨tm2, sd2, h2, h3⟩
        · have hn2 : n = name ∨ n ∈ stringEntries rest := by simpa using hn
          rcases hn2 with rfl | hmem2
          · refine ⟨tm, netSd, hA, ?_⟩
            have hx := hpres n hmem
            rw [hx]
            simp [hst1, updAttr]
          · exact absurd hmem2 hmem
      · intro n2 hn2
        have hne : n2 ≠ name := by
          intro hc
          subst hc
          exact hn2 (by simp)
        have hmem : n2 ∉ stringEntries rest := by
          intro hc
          exact hn2 (by simp [hc])
        have hx := hpres n2 hmem
        rw [hx]
        simp only [hst1, updAttr]
        rw [if_neg hne]

/-- C5: `BaseModel.train` puts every network named by a string entry of `model_names`
in training mode and `BaseModel.eval` puts every such network in evaluation mode;
non-string entries are skipped, the networks' weights are untouched, and no other
attribute or field of the model object changes. -/
theorem c5_train_eval_modes (st : BM)
    (hNet : ∀ n ∈ stringEntries st.model_names, ∃ tm sd, st.attrs n = PyAttr.net tm sd) :
    (∃ st2, train st = Except.ok st2 ∧ st2 = { st with attrs := st2.attrs } ∧
      (∀ n ∈ stringEntries st.model_names, ∃ tm sd, st.attrs n = PyAttr.net tm sd ∧
        st2.attrs n = PyAttr.net true sd) ∧
      (∀ n2 : String, n2 ∉ stringEntries st.model_names → st2.attrs n2 = st.attrs n2)) ∧
    (∃ st3, eval st = Except.ok st3 ∧ st3 = { st with attrs := st3.attrs } ∧
      (∀ n ∈ stringEntries st.model_names, ∃ tm sd, st.attrs n = PyAttr.net tm sd ∧
        st3.attrs n = PyAttr.net false sd) ∧
      (∀ n2 : String, n2 ∉ stringEntries st.model_names → st3.attrs n2 = st.attrs n2)) :=
  ⟨set_train_go_spec true st.model_names st hNet, set_train_go_spec false st.model_names st hNet⟩

/-- Witness for C5 on the one-network witness model. -/
theorem c5_train_eval_modes_witness :
    (∃ st2, train wBMcpu = Except.ok st2 ∧ st2 = { wBMcpu with attrs := st2.attrs } ∧
      (∀ n ∈ stringEntries wBMcpu.model_names, ∃ tm sd, wBMcpu.attrs n = PyAttr.net tm sd ∧
        st2.attrs n = PyAttr.net true sd) ∧
      (∀ n2 : String, n2 ∉ stringEntries wBMcpu.model_names →
        st2.attrs n2 = wBMcpu.attrs n2)) ∧
    (∃ st3, eval wBMcpu = Except.ok st3 ∧ st3 = { wBMcpu with attrs := st3.attrs } ∧
      (∀ n ∈ stringEntries wBMcpu.model_names, ∃ tm sd, wBMcpu.attrs n = PyAttr.net tm sd ∧
        st3.attrs n = PyAttr.net false sd) ∧
      (∀ n2 : String, n2 ∉ stringEntries wBMcpu.model_names →
        st3.attrs n2 = wBMcpu.attrs n2)) :=
  c5_train_eval_modes wBMcpu (by
    intro n hn
    have hn2 : n = "netG" := by simpa [wBMcpu] using hn
    subst hn2
    exact ⟨true, wNetSd, rfl⟩)

/-- C6: `update_learning_rate` steps every scheduler exactly once, passing
`self.metric` iff `lr_policy = 'plateau'`, then reads the learning rate from the first
param group of the first optimizer; with no optimizers (or no param groups) that final
read raises `IndexError` (after the steps); nothing else in the state changes. -/
theorem c6_update_learning_rate (st : BM) (scheds : List Sched)
    (hs : st.schedulers = some scheds) :
    ((update_learning_rate st).1.schedulers =
      some (scheds.map (fun s => (⟨s.steps ++
        [if st.opt.lr_policy == "plateau" then StepCall.withMetric st.metric
          else StepCall.noArg]⟩ : Sched)))) ∧
    ((update_learning_rate st).1 =
      { st with schedulers := (update_learning_rate st).1.schedulers }) ∧
    (st.optimizers = [] → (update_learning_rate st).2 = Except.error "IndexError") ∧
    (∀ o rest g grest, st.optimizers = o :: rest → o.param_groups = g :: grest →
      (update_learning_rate st).2 = Except.ok g.lr) := by
  cases hOpt : st.optimizers with
  | nil =>
    refine ⟨?_, ?_, ?_, ?_⟩
    · simp [update_learning_rate, hs, hOpt]
    · simp [update_learning_rate, hs, hOpt]
    · intro _
      simp [update_learning_rate, hs, hOpt]
    · intro o rest g grest ho _
      exact List.noConfusion ho
  | cons o2 rest2 =>
    cases hPg : o2.param_groups with
    | nil =>
      refine ⟨?_, ?_, ?_, ?_⟩
      · simp [update_learning_rate, hs, hOpt, hPg]
      · simp [update_learning_rate, hs, hOpt, hPg]
      · intro hcontra
        exact List.noConfusion hcontra
      · intro o rest g grest ho hg
        injection ho with ho1 ho2
        rw [← ho1] at hg
        rw [hPg] at hg
        exact List.noConfusion hg
    | cons g2 gr2 =>
      refine ⟨?_, ?_, ?_, ?_⟩
      · simp [update_learning_rate, hs, hOpt, hPg]
      · simp [update_learning_rate, hs, hOpt, hPg]
      · intro hcontra
        exact List.noConfusion hcontra
      · intro o rest g grest ho hg
        injection ho with ho1 ho2
        rw [← ho1] at hg
        rw [hPg] at hg
        injection hg with hg1 hg2
        simp [update_learning_rate, hs, hOpt, hPg, hg1]

/-- Witness for C6 on the concrete plateau-policy model. -/
theorem c6_update_learning_rate_witness :
    ((update_learning_rate wBMlr).1.schedulers =
      some ([wSched].map (fun s => (⟨s.steps ++
        [if wBMlr.opt.lr_policy == "plateau" then StepCall.withMetric wBMlr.metric
          else StepCall.noArg]⟩ : Sched)))) ∧
    ((update_learning_rate wBMlr).1 =
      { wBMlr with schedulers := (update_learning_rate wBMlr).1.schedulers }) ∧
    (wBMlr.optimizers = [] → (update_learning_rate wBMlr).2 = Except.error "IndexError") ∧
    (∀ o rest g grest, wBMlr.optimizers = o :: rest → o.param_groups = g :: grest →
      (update_learning_rate wBMlr).2 = Except.ok g.lr) :=
  c6_update_learning_rate wBMlr [wSched] rfl

/-- Behavior of the `get_current_losses` loop for distinct loss names whose `loss_*`
attributes are scalars: it returns the accumulator extended, in order, by one entry per
string name, valued `float` of the scalar. -/
lemma get_losses_go_spec (st : BM) :
    ∀ (names : List PyVal) (acc : List (String × Int)),
      (stringEntries names).Nodup →
      (∀ n ∈ stringEntries names, n ∉ odKeys acc) →
      (∀ n ∈ stringEntries names, ∃ c, st.attrs ("loss_" ++ n) = PyAttr.scalar c) →
      ∃ l, get_losses_go st names acc = Except.ok (acc ++ l) ∧
        odKeys l = stringEntries names ∧
        (∀ p ∈ l, ∃ c, st.attrs ("loss_" ++ p.1) = PyAttr.scalar c ∧ p.2 = pyFloat c) := by
  intro names
  induction names with
  | nil =>
    intro acc _ _ _
    exact ⟨[], by simp [get_losses_go], rfl, fun p hp => absurd hp (List.not_mem_nil p)⟩
  | cons nm rest ih =>
    intro acc hnd hfr hsc
    cases nm with
    | int m =>
      obtain ⟨l, hok, hkeys, hvals⟩ := ih acc (by simpa using hnd) (by simpa using hfr)
        (by simpa using hsc)
      exact ⟨l, by simpa [get_losses_go] using hok, by simpa using hkeys, hvals⟩
    | str n =>
      obtain ⟨c, hc⟩ := hsc n (by simp)
      have hnd2 : (n :: stringEntries rest).Nodup := by simpa using hnd
      have hnotin : n ∉ stringEntries rest := (List.nodup_cons.mp hnd2).1
      have hnd' : (stringEntries rest).Nodup := (List.nodup_cons.mp hnd2).2
      have hins : odInsert acc n (pyFloat c) = acc ++ [(n, pyFloat c)] :=
        odInsert_of_not_mem acc n (pyFloat c) (hfr n (by simp))
      have hfr' : ∀ n2 ∈ stringEntries rest, n2 ∉ odKeys (acc ++ [(n, pyFloat c)]) := by
        intro n2 hn2
        simp only [odKeys_append, odKeys_cons, odKeys_nil, List.mem_append]
        rintro (h | h)
        · exact hfr n2 (by simp [hn2]) h
        · have hn2n : n2 = n := by simpa using h
          exact hnotin (hn2n ▸ hn2)
      obtain ⟨l, hok, hkeys, hvals⟩ := ih (acc ++ [(n, pyFloat c)]) hnd' hfr'
        (fun n2 hn2 => hsc n2 (by simp [hn2]))
      refine ⟨(n, pyFloat c) :: l, ?_, ?_, ?_⟩
      · have hgo : get_losses_go st (PyVal.str n :: rest) acc =
            get_losses_go st rest (odInsert acc n (pyFloat c)) := by
          simp [get_losses_go, hc]
        rw [hgo, hins, hok]
        simp
      · simp [hkeys]
      · intro p hp
        rcases List.mem_cons.mp hp with hp1 | hp2
        · subst hp1
          exact ⟨c, hc, rfl⟩
        · exact hvals p hp2

/-- Behavior of the `get_current_visuals` loop for distinct visual names whose
attributes exist: the accumulator is extended, in order, by one entry per string name,
valued `getattr(self, name)`. -/
lemma get_visuals_go_spec (st : BM) :
    ∀ (names : List PyVal) (acc : List (String × PyAttr)),
      (stringEntries names).Nodup →
      (∀ n ∈ stringEntries names, n ∉ odKeys acc) →
      (∀ n ∈ stringEntries names, st.attrs n ≠ PyAttr.missing) →
      ∃ l, get_visuals_go st names acc = Except.ok (acc ++ l) ∧
        odKeys l = stringEntries names ∧
        (∀ p ∈ l, p.2 = st.attrs p.1) := by
  intro names
  induction names with
  | nil =>
    intro acc _ _ _
    exact ⟨[], by simp [get_visuals_go], rfl, fun p hp => absurd hp (List.not_mem_nil p)⟩
  | cons nm rest ih =>
    intro acc hnd hfr hvs
    cases nm with
    | int m =>
      obtain ⟨l, hok, hkeys, hvals⟩ := ih acc (by simpa using hnd) (by simpa using hfr)
        (by simpa using hvs)
      exact ⟨l, by simpa [get_visuals_go] using hok, by simpa using hkeys, hvals⟩
    | str n =>
      have hnd2 : (n :: stringEntries rest).Nodup := by simpa using hnd
      have hnotin : n ∉ stringEntries rest := (List.nodup_cons.mp hnd2).1
      have hnd' : (stringEntries rest).Nodup := (List.nodup_cons.mp hnd2).2
      have hgo : get_visuals_go st (PyVal.str n :: rest) acc =
          get_visuals_go st rest (odInsert acc n (st.attrs n)) := by
        have hne := hvs n (by simp)
        cases hA : st.attrs n with
        | missing => exact absurd hA hne
        | net tm sd => simp [get_visuals_go, hA]
        | scalar c => simp [get_visuals_go, hA]
        | vis v => simp [get_visuals_go, hA]
      have hins : odInsert acc n (st.attrs n) = acc ++ [(n, st.attrs n)] :=
        odInsert_of_not_mem acc n (st.attrs n) (hfr n (by simp))
      have hfr' : ∀ n2 ∈ stringEntries rest, n2 ∉ odKeys (acc ++ [(n, st.attrs n)]) := by
        intro n2 hn2
        simp only [odKeys_append, odKeys_cons, odKeys_nil, List.mem_append]
        rintro (h | h)
        · exact hfr n2 (by simp [hn2]) h
        · have hn2n : n2 = n := by simpa using h
          exact hnotin (hn2n ▸ hn2)
      obtain ⟨l, hok, hkeys, hvals⟩ := ih (acc ++ [(n, st.attrs n)]) hnd' hfr'
        (fun n2 hn2 => hvs n2 (by simp [hn2]))
      refine ⟨(n, st.attrs n) :: l, ?_, ?_, ?_⟩
      · rw [hgo, hins, hok]
        simp
      · simp [hkeys]
      · intro p hp
        rcases List.mem_cons.mp hp with hp1 | hp2
        · subst hp1
          rfl
        · exact hvals p hp2

/-- C7: `get_current_losses` returns an ordered mapping whose keys are exactly the
string entries of `loss_names` in order, each valued `float(getattr(self, 'loss_' +
name))`, and `get_current_visuals` likewise maps each string entry of `visual_names`
to `getattr(self, name)`; non-string entries are skipped and both are pure readers. -/
theorem c7_losses_visuals (st : BM)
    (hndL : (stringEntries st.loss_names).Nodup)
    (hsc : ∀ n ∈ stringEntries st.loss_names, ∃ c, st.attrs ("loss_" ++ n) = PyAttr.scalar c)
    (hndV : (stringEntries st.visual_names).Nodup)
    (hvs : ∀ n ∈ stringEntries st.visual_names, st.attrs n ≠ PyAttr.missing) :
    (∃ l, get_current_losses st = Except.ok l ∧ odKeys l = stringEntries st.loss_names ∧
      ∀ p ∈ l, ∃ c, st.attrs ("loss_" ++ p.1) = PyAttr.scalar c ∧ p.2 = pyFloat c) ∧
    (∃ v, get_current_visuals st = Except.ok v ∧ odKeys v = stringEntries st.visual_names ∧
      ∀ p ∈ v, p.2 = st.attrs p.1) := by
  constructor
  · obtain ⟨l, hok, hkeys, hvals⟩ :=
      get_losses_go_spec st st.loss_names [] hndL (by simp) hsc
    exact ⟨l, by simpa [get_current_losses] using hok, hkeys, hvals⟩
  · obtain ⟨v, hok, hkeys, hvals⟩ :=
      get_visuals_go_spec st st.visual_names [] hndV (by simp) hvs
    exact ⟨v, by simpa [get_current_visuals] using hok, hkeys, hvals⟩

/-- Witness for C7 on the concrete loss/visual model. -/
theorem c7_losses_visuals_witness :
    (∃ l, get_current_losses wBMloss = Except.ok l ∧
      odKeys l = stringEntries wBMloss.loss_names ∧
      ∀ p ∈ l, ∃ c, wBMloss.attrs ("loss_" ++ p.1) = PyAttr.scalar c ∧ p.2 = pyFloat c) ∧
    (∃ v, get_current_visuals wBMloss = Except.ok v ∧
      odKeys v = stringEntries wBMloss.visual_names ∧
      ∀ p ∈ v, p.2 = wBMloss.attrs p.1) :=
  c7_losses_visuals wBMloss (by decide)
    (by
      intro n hn
      have hn2 : n = "G" := by simpa [wBMloss] using hn
      subst hn2
      exact ⟨Scalar.tensor 3, rfl⟩)
    (by decide)
    (by
      intro n hn
      have hn2 : n = "fake_B" := by simpa [wBMloss] using hn
      subst hn2
      decide)

/-- C3: after `BaseModel.__init__(opt)` completes, `self.device` is the CUDA device
string `cuda:<opt.gpu_ids[0]>` whenever `opt.gpu_ids` is non-empty and the CPU device
whenever it is empty, and the chosen device depends only on `opt.gpu_ids`. -/
theorem c3_device_selection (opt opt2 : Opt) (hsame : opt.gpu_ids = opt2.gpu_ids) :
    ((baseModelInit opt).device =
      match opt.gpu_ids with
      | [] => "cpu"
      | g :: _ => "cuda:" ++ toString g) ∧
    (baseModelInit opt).device = (baseModelInit opt2).device := by
  refine ⟨?_, ?_⟩
  · cases h : opt.gpu_ids <;> simp [baseModelInit, mkDevice, h]
  · simp [baseModelInit, mkDevice, hsame]

/-- Witness for C3 at a concrete option object with one GPU id. -/
theorem c3_device_selection_witness :
    ((baseModelInit ⟨[0], true, "ck", "exp", false, PyVal.str "latest", false, "linear"⟩).device =
      match ([0] : List Int) with
      | [] => "cpu"
      | g :: _ => "cuda:" ++ toString g) ∧
    (baseModelInit ⟨[0], true, "ck", "exp", false, PyVal.str "latest", false, "linear"⟩).device =
      (baseModelInit ⟨[0], false, "ck2", "exp2", true, PyVal.str "9", true, "plateau"⟩).device :=
  c3_device_selection
    ⟨[0], true, "ck", "exp", false, PyVal.str "latest", false, "linear"⟩
    ⟨[0], false, "ck2", "exp2", true, PyVal.str "9", true, "plateau"⟩ rfl

/-- C8: the constructor of the subclass `live_speech_portraits` performs nothing beyond
the superclass initializer: for every config argument the resulting state is exactly the
superclass initializer's state, and it is independent of `config`. -/
theorem c8_subclass_init_trivial {S Config : Type} (superInit : S) (c c2 : Config) :
    live_speech_portraits_init superInit c = superInit ∧
    live_speech_portraits_init superInit c = live_speech_portraits_init superInit c2 :=
  ⟨rfl, rfl⟩

end LSP
